import Mathlib

/-!
Verification of the file-organizer automation system (`automation.py`).

The development shallowly embeds the core of the program:

* the static category table `FILE_CATEGORIES`;
* the classifier (`os.path.splitext(name)[1].lower()` followed by a
  first-match lookup in the table), shared verbatim by
  `FileHandler.on_created` and `FileOrganizerApp.organize_existing_files`;
* the sweeper `organize_existing_files` as a fold over a directory
  listing with an explicit I/O oracle for the two fallible calls
  (`os.makedirs`, `shutil.move`);
* the watcher handler `FileHandler.on_created`;
* the controller `FileOrganizerApp` (`select_folder`, `start_monitoring`,
  `stop_monitoring`, `update_log`) as a state machine, with GUI
  `log_output.append` calls returned as message lists and the `log.txt`
  sink kept in the state.

File names handed to the classifier are plain base names (the code calls
`os.path.basename` / `os.listdir`), so the embedded `splitext` assumes no
path separator in its input.  Python `str.lower` is modelled by ASCII
case folding (`Char.toLower`); every extension in the table is ASCII.
-/

/-! ## Classifier -/

/-- The static category table, exactly as in the source
(insertion order = Python 3.7+ dict iteration order). -/
def FILE_CATEGORIES : List (String × List String) :=
  [("Images", [".jpg", ".jpeg", ".png", ".gif"]),
   ("Documents", [".pdf", ".docx", ".txt"]),
   ("Videos", [".mp4", ".mkv"]),
   ("Executables", [".exe"]),
   ("Archives", [".zip", ".rar"])]

/-- The suffix of the list starting at its last occurrence of a dot,
`none` if there is no dot.  Helper for the `os.path.splitext` model. -/
def lastDotSuffix : List Char → Option (List Char)
  | [] => none
  | c :: rest =>
    match lastDotSuffix rest with
    | some s => some s
    | none => if c = '.' then some (c :: rest) else none

/-- Extension part of `os.path.splitext` on a separator-free name:
the suffix starting at the last dot, unless every character before that
dot is itself a dot (CPython skips the leading-dot run of the basename,
so `.jpg` and `..jpg` have no extension). -/
def pyExt (cs : List Char) : List Char :=
  match lastDotSuffix (cs.dropWhile (fun c => c = '.')) with
  | some s => s
  | none => []

/-- `os.path.splitext(name)[1]` for a base name. -/
def pyExtOf (name : String) : String := ⟨pyExt name.data⟩

/-- ASCII lower-casing of a string (`str.lower` on the ASCII extensions
the table uses). -/
def lowerStr (s : String) : String := ⟨s.data.map Char.toLower⟩

/-- First-match lookup of an (already lower-cased) extension in the
category table: the loop
`for category, extensions in FILE_CATEGORIES.items(): if file_ext in extensions: ...`. -/
def lookupCat (ext : String) : Option String :=
  FILE_CATEGORIES.findSome? (fun p => if ext ∈ p.2 then some p.1 else none)

/-- The classifier shared by `on_created` and `organize_existing_files`:
`file_ext = os.path.splitext(file_name)[1].lower()` followed by the
first-match table lookup. -/
def classify (fileName : String) : Option String :=
  lookupCat (lowerStr (pyExtOf fileName))

/-! ## Sweeper (`organize_existing_files`)

The monitored root is modelled as a listing of direct entries plus the
contents of the category subdirectories.  `os.listdir` returns the
current `entries`; `os.path.isfile` is membership of a file entry in the
current listing; `os.makedirs(..., exist_ok=True)` appends a directory
entry if absent; `shutil.move` removes the file from the root and
records it under its category (overwriting a same-named file there,
last-write-wins).  The two fallible calls are driven by an I/O oracle:
`mkdirErr name` is the exception `os.makedirs` raises while handling
`name` (it sits outside the `try`, so it aborts the sweep), and
`moveErr name` the exception `shutil.move` raises (caught and logged). -/

/-- A direct entry of the monitored root, as seen by `os.listdir`. -/
inductive Entry
  | file (name : String)
  | dir (name : String)
deriving DecidableEq, Repr

/-- State of the monitored root directory. -/
structure FS where
  entries : List Entry
  catFiles : List (String × String)
deriving DecidableEq, Repr

/-- GUI log lines produced per entry by the sweep, abstracted from the
two `self.log_output.append` calls in the per-file loop body. -/
inductive SweepEv
  | moved (name cat : String)
  | errorMoving (name err : String)
deriving DecidableEq, Repr

/-- Oracle for the two fallible filesystem calls of one sweep. -/
structure FileIo where
  mkdirErr : String → Option String
  moveErr : String → Option String

/-- The oracle under which every filesystem call succeeds. -/
def noFail : FileIo := ⟨fun _ => none, fun _ => none⟩

/-- `os.makedirs(dest_folder, exist_ok=True)`: create the category
directory beneath the root if it is not already there. -/
def ensureDir (fs : FS) (cat : String) : FS :=
  if Entry.dir cat ∈ fs.entries then fs
  else { fs with entries := fs.entries ++ [Entry.dir cat] }

/-- `shutil.move(file_path, new_path)`: take the file out of the root
listing and store it under its category, overwriting silently. -/
def moveToCat (fs : FS) (name cat : String) : FS :=
  { fs with
    entries := fs.entries.erase (Entry.file name),
    catFiles := (cat, name) :: fs.catFiles.filter (fun p => p ≠ (cat, name)) }

/-- The loop body of `organize_existing_files` over the `os.listdir`
snapshot.  Returns the final root state, the per-file log lines, and the
exception (if any) that escaped the loop: `os.makedirs` is outside the
`try`, so its failure aborts the remaining entries, while a `shutil.move`
failure is caught, logged and the loop continues. -/
def sweepList (io : FileIo) (fs : FS) :
    List Entry → FS × List SweepEv × Option String
  | [] => (fs, [], none)
  | Entry.dir _ :: rest => sweepList io fs rest
  | Entry.file name :: rest =>
    if Entry.file name ∈ fs.entries then
      match classify name with
      | none => sweepList io fs rest
      | some cat =>
        match io.mkdirErr name with
        | some err => (fs, [], some err)
        | none =>
          match io.moveErr name with
          | some err =>
            ((sweepList io (ensureDir fs cat) rest).1,
             SweepEv.errorMoving name err ::
               (sweepList io (ensureDir fs cat) rest).2.1,
             (sweepList io (ensureDir fs cat) rest).2.2)
          | none =>
            ((sweepList io (moveToCat (ensureDir fs cat) name cat) rest).1,
             SweepEv.moved name cat ::
               (sweepList io (moveToCat (ensureDir fs cat) name cat) rest).2.1,
             (sweepList io (moveToCat (ensureDir fs cat) name cat) rest).2.2)
    else sweepList io fs rest

/-- `organize_existing_files`: one sweep over the listing taken at call
time. -/
def sweep (io : FileIo) (fs : FS) : FS × List SweepEv × Option String :=
  sweepList io fs fs.entries


/-! ## Watcher handler (`FileHandler.on_created`) -/

/-- Outcome of one `on_created` dispatch: a `file_moved` signal emission,
a caught-and-printed move error, or no action. -/
inductive MoveOutcome
  | moved (name cat : String)
  | failed (name err : String)
  | skipped
deriving DecidableEq, Repr

/-- Oracle for the two fallible filesystem calls inside one
`on_created` dispatch. -/
structure IoEnv where
  mkdirErr : Option String
  moveErr : Option String
deriving DecidableEq, Repr

/-- The handler environment in which both calls succeed. -/
def okIo : IoEnv := ⟨none, none⟩

/-- `FileHandler.on_created`, with `fileName` the basename of
`event.src_path`.  `Except.error` is an exception escaping the handler:
`os.makedirs` sits before the `try`, so its failure is not caught, while
a `shutil.move` failure is caught and printed. -/
def on_created (env : IoEnv) (isDirectory : Bool) (fileName : String) :
    Except String MoveOutcome :=
  if isDirectory then Except.ok MoveOutcome.skipped
  else
    match classify fileName with
    | none => Except.ok MoveOutcome.skipped
    | some cat =>
      match env.mkdirErr with
      | some err => Except.error err
      | none =>
        match env.moveErr with
        | some err => Except.ok (MoveOutcome.failed fileName err)
        | none => Except.ok (MoveOutcome.moved fileName cat)

/-! ## Controller (`FileOrganizerApp`) and monitor lifecycle

`FileOrganizerApp` is modelled by its core state: the selected
`source_folder`, the `worker` reference (the current `FolderMonitor`, if
any), the contents of `log.txt`, and the filesystem reachable from each
root path.  GUI `log_output.append` strings are returned by each
operation instead of stored (the on-screen log is presentation); the
string literals are verbatim from the source file.  Former monitors that
the controller stopped and discarded are kept in `stopped` so that the
at-most-one-active-session property is about every monitor ever created,
not just the currently referenced one.  `Session.id` is creation order
and `MoveEvent` notifications are tagged with it — instrumentation used
only to state trace properties, not part of the program state. -/

/-- One `FolderMonitor` object: `root` is the `source_folder` captured by
`FolderMonitor.__init__`, `running` its `isRunning()` status. -/
structure Session where
  id : Nat
  root : String
  running : Bool
deriving DecidableEq, Repr

/-- A `MoveEvent` notification (a `file_moved` emission or a sweep move
report), tagged with the id of the session started by the same
`start_monitoring` invocation (sweep moves) or the running session
(watch moves). -/
inductive Ev
  | sweepMove (sid : Nat) (name cat : String)
  | watchMove (sid : Nat) (name cat : String)
deriving DecidableEq, Repr

/-- Core state of `FileOrganizerApp`. -/
structure App where
  source_folder : Option String
  worker : Option Session
  stopped : List Session
  nextId : Nat
  dirs : List (String × FS)
  fileLog : List String
deriving DecidableEq, Repr

/-- The directory state at a root path (an unknown root is empty). -/
def getFS (dirs : List (String × FS)) (root : String) : FS :=
  match dirs.find? (fun p => p.1 = root) with
  | some p => p.2
  | none => ⟨[], []⟩

/-- Replace the directory state at a root path. -/
def setFS (dirs : List (String × FS)) (root : String) (fs : FS) :
    List (String × FS) :=
  match dirs with
  | [] => [(root, fs)]
  | p :: rest => if p.1 = root then (root, fs) :: rest else p :: setFS rest root fs

/-- `self.worker and self.worker.isRunning()`. -/
def workerRunning (app : App) : Bool :=
  match app.worker with
  | some w => w.running
  | none => false

def msgFolderSelected (folder : String) : String :=
  "üìÅ Folder Selected: " ++ folder

def msgOrganizing : String := "üóÇÔ∏è Organizing existing files..."

def msgMovedExisting (name cat : String) : String :=
  "‚úÖ Moved existing file: " ++ name ++ " ‚Üí " ++ cat

def msgErrorExisting (name err : String) : String :=
  "‚ùå Error moving existing file " ++ name ++ ": " ++ err

def msgSelectFirst : String := "‚ö†Ô∏è Please select a folder first!"

def msgAlreadyRunning : String := "‚ö†Ô∏è Monitoring is already running!"

def msgStarted : String := "‚ñ∂Ô∏è Monitoring Started..."

def msgErrorStarting (err : String) : String :=
  "‚ùå Error starting monitoring: " ++ err

def msgStopped : String := "‚èπÔ∏è Monitoring Stopped."

def msgNothingToStop : String := "‚ö†Ô∏è No monitoring to stop!"

/-- The `log.txt` line written by `update_log` for one successful move. -/
def logLine (name cat : String) : String :=
  "‚úÖ Moved: " ++ name ++ " ‚Üí " ++ cat

/-- `update_log(file_name, category)`: append one line to the GUI log and
open, append and close `log.txt`.  Returns the new state and the GUI
line. -/
def update_log (app : App) (name cat : String) : App × List String :=
  ({ app with fileLog := app.fileLog ++ [logLine name cat] },
   [logLine name cat])

/-- `select_folder`: `folder` is the directory chosen in the dialog
(`""` when the dialog was cancelled, which Python treats as falsy). -/
def select_folder (app : App) (folder : String) :
    App × List Ev × List String :=
  if folder ≠ "" then
    ({ app with source_folder := some folder }, [],
     [msgFolderSelected folder])
  else (app, [], [])

/-- GUI line logged by `organize_existing_files` for one entry. -/
def sweepMsg : SweepEv → String
  | SweepEv.moved n c => msgMovedExisting n c
  | SweepEv.errorMoving n e => msgErrorExisting n e

/-- The `MoveEvent` notifications of a sweep (its successful moves),
tagged with the id `sid` of the session the surrounding
`start_monitoring` call is about to create. -/
def sweepMoveEvs (sid : Nat) : List SweepEv → List Ev
  | [] => []
  | SweepEv.moved n c :: rest => Ev.sweepMove sid n c :: sweepMoveEvs sid rest
  | SweepEv.errorMoving _ _ :: rest => sweepMoveEvs sid rest

/-- `start_monitoring`: refuse without a selected folder; refuse while a
monitor is running; otherwise run `organize_existing_files` to
completion, then stop any stale (non-running) previous worker and start
a fresh `FolderMonitor` on the selected root.  An exception escaping the
sweep is caught by the surrounding `try` of `start_monitoring`: the
partial sweep effects remain but no monitor is started. -/
def start_monitoring (io : FileIo) (app : App) : App × List Ev × List String :=
  match app.source_folder with
  | none => (app, [], [msgSelectFirst])
  | some root =>
    if workerRunning app then (app, [], [msgAlreadyRunning])
    else
      match (sweep io (getFS app.dirs root)).2.2 with
      | some err =>
        ({ app with
            dirs := setFS app.dirs root (sweep io (getFS app.dirs root)).1 },
         sweepMoveEvs app.nextId (sweep io (getFS app.dirs root)).2.1,
         msgOrganizing ::
           ((sweep io (getFS app.dirs root)).2.1).map sweepMsg ++
           [msgErrorStarting err])
      | none =>
        ({ app with
            dirs := setFS app.dirs root (sweep io (getFS app.dirs root)).1,
            worker := some { id := app.nextId, root := root, running := true },
            stopped :=
              (match app.worker with
               | some w => { w with running := false } :: app.stopped
               | none => app.stopped),
            nextId := app.nextId + 1 },
         sweepMoveEvs app.nextId (sweep io (getFS app.dirs root)).2.1,
         msgOrganizing ::
           ((sweep io (getFS app.dirs root)).2.1).map sweepMsg ++
           [msgStarted])

/-- `stop_monitoring`: stop and join the running monitor and drop the
reference; otherwise report that nothing is running. -/
def stop_monitoring (app : App) : App × List Ev × List String :=
  match app.worker with
  | some w =>
    if w.running then
      ({ app with
          worker := none,
          stopped := { w with running := false } :: app.stopped },
       [], [msgStopped])
    else (app, [], [msgNothingToStop])
  | none => (app, [], [msgNothingToStop])

/-- Delivery of one filesystem creation event to the running monitor (if
any): watchdog dispatches to `FileHandler(w.root).on_created`; on a
successful move the `file_moved` signal reaches `update_log`.  A caught
move failure prints to the console only; an exception escaping the
handler dies inside watchdog's dispatcher.  The created file itself
appears under the watched tree before the handler moves it; the root
listing effect is the handler's move. -/
def on_fs_event (env : IoEnv) (isDirectory : Bool) (name : String)
    (app : App) : App × List Ev × List String :=
  match app.worker with
  | some w =>
    if w.running then
      match on_created env isDirectory name with
      | Except.ok (MoveOutcome.moved n c) =>
        ((update_log
            { app with
                dirs := setFS app.dirs w.root
                  (moveToCat (ensureDir (getFS app.dirs w.root) c) n c) }
            n c).1,
         [Ev.watchMove w.id n c],
         (update_log
            { app with
                dirs := setFS app.dirs w.root
                  (moveToCat (ensureDir (getFS app.dirs w.root) c) n c) }
            n c).2)
      | Except.ok (MoveOutcome.failed _ _) => (app, [], [])
      | Except.ok MoveOutcome.skipped => (app, [], [])
      | Except.error _ => (app, [], [])
    else (app, [], [])
  | none => (app, [], [])

/-- One external stimulus to the application. -/
inductive Cmd
  | select (folder : String)
  | start (io : FileIo)
  | stop
  | fsEvent (env : IoEnv) (isDirectory : Bool) (name : String)

/-- Dispatch one stimulus. -/
def stepCmd (app : App) : Cmd → App × List Ev × List String
  | Cmd.select f => select_folder app f
  | Cmd.start io => start_monitoring io app
  | Cmd.stop => stop_monitoring app
  | Cmd.fsEvent env d n => on_fs_event env d n app

/-- Run a stimulus sequence, collecting the `MoveEvent` trace. -/
def runCmds (app : App) : List Cmd → App × List Ev
  | [] => (app, [])
  | c :: rest =>
    ((runCmds (stepCmd app c).1 rest).1,
     (stepCmd app c).2.1 ++ (runCmds (stepCmd app c).1 rest).2)

/-- Every monitor object the controller knows about. -/
def sessionsOf (app : App) : List Session :=
  (match app.worker with | some w => [w] | none => []) ++ app.stopped

/-- Number of monitors whose thread is running. -/
def activeCount (app : App) : Nat :=
  (sessionsOf app).countP (fun s => s.running)

/-- Bookkeeping invariant: session ids were allocated below `nextId`. -/
def AppInv (app : App) : Prop :=
  (∀ w, app.worker = some w → w.id < app.nextId) ∧
  (∀ s ∈ app.stopped, s.id < app.nextId)

/-- No sweep-move notification of session `n` occurs in the trace. -/
def noSweepN (n : Nat) (l : List Ev) : Prop :=
  ∀ f c, Ev.sweepMove n f c ∉ l

/-- After any watch-move of session `n`, no sweep-move of session `n`
follows. -/
def swOrd (n : Nat) : List Ev → Prop
  | [] => True
  | Ev.sweepMove _ _ _ :: rest => swOrd n rest
  | Ev.watchMove m _ _ :: rest => (m = n → noSweepN n rest) ∧ swOrd n rest

/-- Concrete root used by the concrete instances below. -/
def rootFS : FS :=
  ⟨[Entry.file "a.png", Entry.file "b.txt", Entry.file "c.unknown",
    Entry.dir "Stuff"], []⟩

/-- Concrete controller state: root `r` selected, no monitor yet. -/
def app0 : App := ⟨some "r", none, [], 0, [("r", rootFS)], []⟩

/-- Concrete controller state with a running monitor on root `r`. -/
def appRun : App := ⟨some "r", some ⟨0, "r", true⟩, [], 1, [("r", rootFS)], []⟩
/-! ## Concrete evaluations -/

example : classify "photo.jpg" = some "Images" := by decide
example : classify "photo.JPG" = some "Images" := by decide
example : classify "a.b.txt" = some "Documents" := by decide
example : classify ".png" = none := by decide
example : classify "....jpg" = none := by decide
example : classify "noext" = none := by decide
example : classify "x.unknown" = none := by decide

example :
    sweep noFail ⟨[Entry.file "a.png", Entry.file "b.txt",
                   Entry.file "c.unknown"], []⟩ =
      (⟨[Entry.file "c.unknown", Entry.dir "Images", Entry.dir "Documents"],
        [("Documents", "b.txt"), ("Images", "a.png")]⟩,
       [SweepEv.moved "a.png" "Images", SweepEv.moved "b.txt" "Documents"],
       none) := by
  decide
/-! ## Lemmas about the classifier -/

lemma lastDotSuffix_eq_none {t : List Char} (h : '.' ∉ t) :
    lastDotSuffix t = none := by
  induction t with
  | nil => rfl
  | cons c rest ih =>
    have hc : c ≠ '.' := fun hc => h (hc ▸ List.mem_cons_self c rest)
    have hr : '.' ∉ rest := fun hr => h (List.mem_cons_of_mem c hr)
    simp [lastDotSuffix, ih hr, hc]

lemma lastDotSuffix_append_dot {t : List Char} (a : List Char) (h : '.' ∉ t) :
    lastDotSuffix (a ++ '.' :: t) = some ('.' :: t) := by
  induction a with
  | nil => simp [lastDotSuffix, lastDotSuffix_eq_none h]
  | cons c a ih => simp [lastDotSuffix, ih]

lemma string_data_append (a b : String) : (a ++ b).data = a.data ++ b.data := rfl

/-- Core computation for C4: appending a dotted, dot-free extension to a
name containing at least one non-dot character makes that extension the
`splitext` suffix. -/
lemma pyExt_append_ext (nd tl : List Char)
    (hname : ∃ c ∈ nd, c ≠ '.') (htl : '.' ∉ tl) :
    pyExt (nd ++ '.' :: tl) = '.' :: tl := by
  have hne : ¬ (nd.dropWhile (fun c => c = '.')).isEmpty = true := by
    rw [List.isEmpty_iff, List.dropWhile_eq_nil_iff]
    intro hall
    obtain ⟨c, hc, hcn⟩ := hname
    have := hall c hc
    simp at this
    exact hcn this
  unfold pyExt
  rw [List.dropWhile_append, if_neg hne, lastDotSuffix_append_dot _ htl]

lemma char_toNat_ofNat_valid (n : Nat) (h : n.isValidChar) :
    (Char.ofNat n).toNat = n := by
  rw [Char.ofNat, dif_pos h]
  rfl

/-- ASCII lower-casing maps nothing but the dot to a dot. -/
lemma toLower_eq_dot {c : Char} (h : c.toLower = '.') : c = '.' := by
  simp only [Char.toLower] at h
  split at h
  case isTrue hc =>
    exfalso
    have hv : (c.toNat + 32).isValidChar := Or.inl (by omega)
    have h2 := congrArg Char.toNat h
    rw [char_toNat_ofNat_valid _ hv] at h2
    have hd : Char.toNat '.' = 46 := by decide
    omega
  case isFalse => exact h

/-- Structure of any case-variant of a concrete dotted extension. -/
lemma case_variant_structure {x e : String} {u : List Char}
    (hlow : lowerStr x = e) (he : e.data = '.' :: u) (hu : '.' ∉ u) :
    ∃ tl, x.data = '.' :: tl ∧ '.' ∉ tl ∧ tl.map Char.toLower = u := by
  have hdata : x.data.map Char.toLower = '.' :: u := by
    have := congrArg String.data hlow
    simpa [lowerStr, he] using this
  cases hx : x.data with
  | nil => rw [hx] at hdata; simp at hdata
  | cons c tl =>
    rw [hx] at hdata
    simp only [List.map_cons, List.cons.injEq] at hdata
    obtain ⟨hc, htl⟩ := hdata
    refine ⟨tl, ?_, ?_, htl⟩
    · rw [toLower_eq_dot hc]
    · intro hmem
      have : Char.toLower '.' ∈ tl.map Char.toLower := List.mem_map_of_mem _ hmem
      rw [htl] at this
      have hld : Char.toLower '.' = '.' := by decide
      rw [hld] at this
      exact hu this

/-- Every extension in the table is a dot followed by a dot-free tail,
and looking up an extension of the table returns its category. -/
lemma table_sound : ∀ p ∈ FILE_CATEGORIES, ∀ x ∈ p.2,
    lookupCat x = some p.1 ∧ x.data.head? = some '.' ∧ '.' ∉ x.data.tail := by
  decide

lemma table_ext_shape {c : String} {exts : List String} {x : String}
    (hmem : (c, exts) ∈ FILE_CATEGORIES) (hx : x ∈ exts) :
    lookupCat x = some c ∧ ∃ u, x.data = '.' :: u ∧ '.' ∉ u := by
  obtain ⟨h1, h2, h3⟩ := table_sound (c, exts) hmem x hx
  refine ⟨h1, ?_⟩
  cases hd : x.data with
  | nil => rw [hd] at h2; simp at h2
  | cons a u =>
    rw [hd] at h2 h3
    simp only [List.head?_cons, Option.some.injEq] at h2
    exact ⟨u, by rw [h2], h3⟩

/-- C4 (amended): for every file name containing at least one non-dot
character and every extension X of category C in the table,
`classify (name ++ X)` returns C for every letter-case variant of X. -/
theorem classify_case_insensitive (name x xv c : String) (exts : List String)
    (hmem : (c, exts) ∈ FILE_CATEGORIES) (hx : x ∈ exts)
    (hcase : lowerStr xv = x)
    (hname : ∃ ch ∈ name.data, ch ≠ '.') :
    classify (name ++ xv) = some c := by
  obtain ⟨hlook, u, hxd, hu⟩ := table_ext_shape hmem hx
  obtain ⟨tl, hxv, htl, hmap⟩ := case_variant_structure hcase hxd hu
  have hext : pyExtOf (name ++ xv) = ⟨'.' :: tl⟩ := by
    unfold pyExtOf
    rw [string_data_append, hxv, pyExt_append_ext name.data tl hname htl]
  have hlow2 : lowerStr (pyExtOf (name ++ xv)) = x := by
    rw [hext]
    unfold lowerStr
    apply String.ext
    show ('.' :: tl).map Char.toLower = x.data
    have hld : Char.toLower '.' = '.' := by decide
    rw [List.map_cons, hld, hmap, hxd]
  rw [classify, hlow2, hlook]

/-- C4 counterexample: the claim quantifies over every file name, but a
name consisting only of dots defeats `os.path.splitext` (the whole
basename is a leading-dot run), so `classify ("..." ++ ".jpg")` is
`none`, not `some "Images"`, even though `.jpg` is listed under Images. -/
theorem classify_case_insensitive_cex :
    ("Images", [".jpg", ".jpeg", ".png", ".gif"]) ∈ FILE_CATEGORIES ∧
    ".jpg" ∈ [".jpg", ".jpeg", ".png", ".gif"] ∧
    classify ("..." ++ ".jpg") ≠ some "Images" ∧
    classify ("..." ++ ".jpg") = none := by
  decide

/-- Witness for C4: a concrete run of the amended theorem. -/
theorem classify_case_insensitive_witness :
    classify ("photo" ++ ".JPG") = some "Images" :=
  classify_case_insensitive "photo" ".jpg" ".JPG" "Images"
    [".jpg", ".jpeg", ".png", ".gif"] (by decide) (by decide) (by decide)
    ⟨'p', by decide, by decide⟩

/-! ## Lemmas about the sweeper -/

lemma mem_ensureDir {e : Entry} {fs : FS} (cat : String)
    (h : e ∈ fs.entries) : e ∈ (ensureDir fs cat).entries := by
  unfold ensureDir
  split
  · exact h
  · exact List.mem_append_left _ h

lemma file_mem_of_mem_ensureDir {name : String} {fs : FS} {cat : String}
    (h : Entry.file name ∈ (ensureDir fs cat).entries) :
    Entry.file name ∈ fs.entries := by
  unfold ensureDir at h
  split at h
  · exact h
  · rcases List.mem_append.mp h with h1 | h1
    · exact h1
    · simp at h1

lemma nodup_ensureDir {fs : FS} (cat : String) (h : fs.entries.Nodup) :
    (ensureDir fs cat).entries.Nodup := by
  unfold ensureDir
  split
  case isTrue => exact h
  case isFalse hne =>
    simp only [List.nodup_append, List.nodup_cons, List.not_mem_nil,
      not_false_iff, List.nodup_nil, and_true, true_and]
    refine ⟨h, ?_⟩
    intro a ha hb
    simp only [List.mem_singleton] at hb
    exact hne (hb ▸ ha)

lemma nodup_moveToCat {fs : FS} (name cat : String) (h : fs.entries.Nodup) :
    (moveToCat fs name cat).entries.Nodup :=
  h.erase _

lemma sweepList_nodup (io : FileIo) :
    ∀ (l : List Entry) (fs : FS), fs.entries.Nodup →
      (sweepList io fs l).1.entries.Nodup := by
  intro l
  induction l with
  | nil => intro fs h; exact h
  | cons e rest ih =>
    intro fs h
    match e with
    | Entry.dir d => exact ih fs h
    | Entry.file n =>
      by_cases hp : Entry.file n ∈ fs.entries
      · cases hc : classify n with
        | none => simp only [sweepList, if_pos hp, hc]; exact ih fs h
        | some cat =>
          cases hmk : io.mkdirErr n with
          | some err => simp only [sweepList, if_pos hp, hc, hmk]; exact h
          | none =>
            cases hmv : io.moveErr n with
            | some err =>
              simp only [sweepList, if_pos hp, hc, hmk, hmv]
              exact ih _ (nodup_ensureDir cat h)
            | none =>
              simp only [sweepList, if_pos hp, hc, hmk, hmv]
              exact ih _ (nodup_moveToCat n cat (nodup_ensureDir cat h))
      · simp only [sweepList, if_neg hp]; exact ih fs h

lemma sweepList_preserves_unclassified (io : FileIo) {name : String}
    (hn : classify name = none) :
    ∀ (l : List Entry) (fs : FS), Entry.file name ∈ fs.entries →
      Entry.file name ∈ (sweepList io fs l).1.entries := by
  intro l
  induction l with
  | nil => intro fs h; exact h
  | cons e rest ih =>
    intro fs h
    match e with
    | Entry.dir d => exact ih fs h
    | Entry.file n =>
      by_cases hp : Entry.file n ∈ fs.entries
      · cases hc : classify n with
        | none => simp only [sweepList, if_pos hp, hc]; exact ih fs h
        | some cat =>
          have hne : name ≠ n := fun he => by rw [he, hc] at hn; cases hn
          cases hmk : io.mkdirErr n with
          | some err => simp only [sweepList, if_pos hp, hc, hmk]; exact h
          | none =>
            cases hmv : io.moveErr n with
            | some err =>
              simp only [sweepList, if_pos hp, hc, hmk, hmv]
              exact ih _ (mem_ensureDir cat h)
            | none =>
              simp only [sweepList, if_pos hp, hc, hmk, hmv]
              refine ih _ ?_
              show Entry.file name ∈ (ensureDir fs cat).entries.erase (Entry.file n)
              exact (List.mem_erase_of_ne (by simp [hne])).mpr
                (mem_ensureDir cat h)
      · simp only [sweepList, if_neg hp]; exact ih fs h

lemma sweepList_moved_classified (io : FileIo) :
    ∀ (l : List Entry) (fs : FS) (name cat : String),
      SweepEv.moved name cat ∈ (sweepList io fs l).2.1 →
      classify name = some cat := by
  intro l
  induction l with
  | nil => intro fs name cat h; simp [sweepList] at h
  | cons e rest ih =>
    intro fs name cat h
    match e with
    | Entry.dir d => exact ih fs name cat h
    | Entry.file n =>
      by_cases hp : Entry.file n ∈ fs.entries
      · cases hc : classify n with
        | none => rw [sweepList, if_pos hp, hc] at h; exact ih fs name cat h
        | some c0 =>
          cases hmk : io.mkdirErr n with
          | some err =>
            rw [sweepList, if_pos hp, hc, hmk] at h
            simp at h
          | none =>
            cases hmv : io.moveErr n with
            | some err =>
              rw [sweepList, if_pos hp, hc, hmk, hmv] at h
              simp only [List.mem_cons] at h
              rcases h with h | h
              · cases h
              · exact ih _ name cat h
            | none =>
              rw [sweepList, if_pos hp, hc, hmk, hmv] at h
              simp only [List.mem_cons] at h
              rcases h with h | h
              · cases h; exact hc
              · exact ih _ name cat h
      · rw [sweepList, if_neg hp] at h; exact ih fs name cat h

lemma sweepList_noFail_removes :
    ∀ (l : List Entry) (fs : FS), fs.entries.Nodup →
      ∀ name cat, classify name = some cat →
        Entry.file name ∈ (sweepList noFail fs l).1.entries →
        Entry.file name ∈ fs.entries ∧ Entry.file name ∉ l := by
  intro l
  induction l with
  | nil => intro fs _ name cat _ h; exact ⟨h, List.not_mem_nil _⟩
  | cons e rest ih =>
    intro fs hnd name cat hcl h
    match e with
    | Entry.dir d =>
      obtain ⟨h1, h2⟩ := ih fs hnd name cat hcl h
      exact ⟨h1, by simp [h2]⟩
    | Entry.file n =>
      by_cases hp : Entry.file n ∈ fs.entries
      · cases hc : classify n with
        | none =>
          rw [sweepList, if_pos hp, hc] at h
          obtain ⟨h1, h2⟩ := ih fs hnd name cat hcl h
          have hne : name ≠ n := fun he => by rw [he, hc] at hcl; cases hcl
          exact ⟨h1, by simp [h2, hne]⟩
        | some c0 =>
          rw [sweepList, if_pos hp, hc] at h
          simp only [noFail] at h
          obtain ⟨h1, h2⟩ := ih _
            (nodup_moveToCat n c0 (nodup_ensureDir c0 hnd)) name cat hcl h
          have hmem := (List.Nodup.mem_erase_iff
            (nodup_ensureDir c0 hnd)).mp h1
          have hne : Entry.file name ≠ Entry.file n := hmem.1
          have hfs : Entry.file name ∈ fs.entries :=
            file_mem_of_mem_ensureDir hmem.2
          refine ⟨hfs, ?_⟩
          simp only [List.mem_cons, not_or]
          exact ⟨hne, h2⟩
      · rw [sweepList, if_neg hp] at h
        obtain ⟨h1, h2⟩ := ih fs hnd name cat hcl h
        have hne : Entry.file name ≠ Entry.file n := fun he => hp (he ▸ h1)
        simp only [List.mem_cons, not_or]
        exact ⟨h1, hne, h2⟩

lemma sweepList_all_unclassified (io : FileIo) :
    ∀ (l : List Entry) (fs : FS),
      (∀ n, Entry.file n ∈ l → classify n = none) →
      sweepList io fs l = (fs, [], none) := by
  intro l
  induction l with
  | nil => intro fs _; rfl
  | cons e rest ih =>
    intro fs hall
    match e with
    | Entry.dir d =>
      show sweepList io fs rest = (fs, [], none)
      exact ih fs (fun n hn => hall n (List.mem_cons_of_mem _ hn))
    | Entry.file n =>
      have hc : classify n = none := hall n (List.mem_cons_self _ _)
      by_cases hp : Entry.file n ∈ fs.entries
      · rw [sweepList, if_pos hp, hc]
        exact ih fs (fun m hm => hall m (List.mem_cons_of_mem _ hm))
      · rw [sweepList, if_neg hp]
        exact ih fs (fun m hm => hall m (List.mem_cons_of_mem _ hm))

lemma sweepList_noFail_no_abort :
    ∀ (l : List Entry) (fs : FS), (sweepList noFail fs l).2.2 = none := by
  intro l
  induction l with
  | nil => intro fs; rfl
  | cons e rest ih =>
    intro fs
    match e with
    | Entry.dir d => exact ih fs
    | Entry.file n =>
      by_cases hp : Entry.file n ∈ fs.entries
      · cases hc : classify n with
        | none => rw [sweepList, if_pos hp, hc]; exact ih fs
        | some cat =>
          rw [sweepList, if_pos hp, hc]
          simp only [noFail]
          exact ih _
      · rw [sweepList, if_neg hp]; exact ih fs

lemma pyExt_of_dropWhile_dot_free {cs : List Char}
    (h : '.' ∉ cs.dropWhile (fun c => c = '.')) : pyExt cs = [] := by
  unfold pyExt
  rw [lastDotSuffix_eq_none h]

lemma classify_of_ext_empty {x : String} (h : pyExtOf x = "") :
    classify x = none := by
  rw [classify, h]
  decide

lemma sweepList_mkdir_ok_no_abort (io : FileIo)
    (hmk : ∀ n, io.mkdirErr n = none) :
    ∀ (l : List Entry) (fs : FS), (sweepList io fs l).2.2 = none := by
  intro l
  induction l with
  | nil => intro fs; rfl
  | cons e rest ih =>
    intro fs
    match e with
    | Entry.dir d => exact ih fs
    | Entry.file n =>
      by_cases hp : Entry.file n ∈ fs.entries
      · cases hc : classify n with
        | none => rw [sweepList, if_pos hp, hc]; exact ih fs
        | some cat =>
          rw [sweepList, if_pos hp, hc, hmk n]
          cases hmv : io.moveErr n with
          | some err => exact ih _
          | none => exact ih _
      · rw [sweepList, if_neg hp]; exact ih fs

/-! ## Claim theorems about classifier, sweeper and handler -/

/-- C5: a file name whose lower-cased suffix is not in any category set
is classified `none`; its sweep iteration performs no action (no
directory created, no move, no event), the file survives every sweep at
the root, it is never reported moved, and the watcher handler skips it. -/
theorem unmapped_file_untouched (name : String) (h : classify name = none) :
    (∀ io fs, sweepList io fs [Entry.file name] = (fs, [], none)) ∧
    (∀ io fs l, Entry.file name ∈ fs.entries →
      Entry.file name ∈ (sweepList io fs l).1.entries) ∧
    (∀ io fs l cat, SweepEv.moved name cat ∉ (sweepList io fs l).2.1) ∧
    (∀ env, on_created env false name = Except.ok MoveOutcome.skipped) := by
  refine ⟨?_, ?_, ?_, ?_⟩
  · intro io fs
    by_cases hp : Entry.file name ∈ fs.entries
    · rw [sweepList, if_pos hp, h]; rfl
    · rw [sweepList, if_neg hp]; rfl
  · intro io fs l hmem
    exact sweepList_preserves_unclassified io h l fs hmem
  · intro io fs l cat hmem
    have := sweepList_moved_classified io l fs name cat hmem
    rw [h] at this
    cases this
  · intro env
    simp [on_created, h]

/-- Witness for C5 at the unmapped name `c.unknown`. -/
theorem unmapped_file_untouched_witness :
    sweepList noFail ⟨[Entry.file "c.unknown"], []⟩ [Entry.file "c.unknown"]
      = (⟨[Entry.file "c.unknown"], []⟩, [], none) ∧
    on_created okIo false "c.unknown" = Except.ok MoveOutcome.skipped :=
  ⟨(unmapped_file_untouched "c.unknown" (by decide)).1 noFail _,
   (unmapped_file_untouched "c.unknown" (by decide)).2.2.2 okIo⟩

/-- C6 (amended): a `shutil.move` failure on one entry is caught inside
the loop body, contributes exactly one failure log line, and the sweep
continues with the remaining entries from the state in which the
category directory was already ensured; the whole sweep aborts only if
a later entry aborts it.  The amendment restricts the claim to move
failures: a per-file `os.makedirs` failure is outside the `try` and
aborts the sweep (see the counterexample). -/
theorem move_failure_continues (io : FileIo) (fs : FS)
    (name cat err : String) (rest : List Entry)
    (hin : Entry.file name ∈ fs.entries) (hc : classify name = some cat)
    (hmk : io.mkdirErr name = none) (hmv : io.moveErr name = some err) :
    sweepList io fs (Entry.file name :: rest) =
      ((sweepList io (ensureDir fs cat) rest).1,
       SweepEv.errorMoving name err ::
         (sweepList io (ensureDir fs cat) rest).2.1,
       (sweepList io (ensureDir fs cat) rest).2.2) := by
  rw [sweepList, if_pos hin, hc, hmk, hmv]

/-- C6 counterexample: not every per-file failure lets the sweep
continue.  An `os.makedirs` failure while handling `a.png` (the call is
outside the `try`) aborts the whole sweep: no failure notification is
logged, and the later entry `b.txt` — classifiable to Documents — is
left unprocessed at the root. -/
theorem move_failure_continues_cex :
    sweepList ⟨fun n => if n = "a.png" then some "PermissionError" else none,
               fun _ => none⟩
      ⟨[Entry.file "a.png", Entry.file "b.txt"], []⟩
      [Entry.file "a.png", Entry.file "b.txt"] =
      (⟨[Entry.file "a.png", Entry.file "b.txt"], []⟩, [],
       some "PermissionError") ∧
    classify "b.txt" = some "Documents" := by
  exact ⟨rfl, by decide⟩

/-- Witness for C6: a locked `a.png` is logged as a failure and the
sweep still moves the later `b.txt`. -/
theorem move_failure_continues_witness :
    sweepList ⟨fun _ => none,
               fun n => if n = "a.png" then some "locked" else none⟩
      ⟨[Entry.file "a.png", Entry.file "b.txt"], []⟩
      [Entry.file "a.png", Entry.file "b.txt"] =
      ((sweepList ⟨fun _ => none,
                   fun n => if n = "a.png" then some "locked" else none⟩
          (ensureDir ⟨[Entry.file "a.png", Entry.file "b.txt"], []⟩ "Images")
          [Entry.file "b.txt"]).1,
       SweepEv.errorMoving "a.png" "locked" ::
         (sweepList ⟨fun _ => none,
                     fun n => if n = "a.png" then some "locked" else none⟩
            (ensureDir ⟨[Entry.file "a.png", Entry.file "b.txt"], []⟩ "Images")
            [Entry.file "b.txt"]).2.1,
       (sweepList ⟨fun _ => none,
                   fun n => if n = "a.png" then some "locked" else none⟩
          (ensureDir ⟨[Entry.file "a.png", Entry.file "b.txt"], []⟩ "Images")
          [Entry.file "b.txt"]).2.2) :=
  move_failure_continues _ _ "a.png" "Images" "locked" [Entry.file "b.txt"]
    (by decide) (by decide) rfl (by decide)

/-- C7: after a sweep in which every filesystem call succeeded, a second
sweep over the same root performs zero moves, logs nothing, raises
nothing, and leaves the root unchanged (all classifiable regular files
were already relocated; directory entries are skipped).  Directory
listings are duplicate-free, hence the `Nodup` hypothesis. -/
theorem sweeper_idempotent (fs : FS) (hnd : fs.entries.Nodup) :
    sweep noFail (sweep noFail fs).1 = ((sweep noFail fs).1, [], none) := by
  have key : ∀ n, Entry.file n ∈ (sweep noFail fs).1.entries →
      classify n = none := by
    intro n hn
    cases hcl : classify n with
    | none => rfl
    | some c =>
      obtain ⟨h1, h2⟩ :=
        sweepList_noFail_removes fs.entries fs hnd n c hcl hn
      exact absurd h1 h2
  exact sweepList_all_unclassified noFail _ _ key

/-- Witness for C7 on a concrete mixed root. -/
theorem sweeper_idempotent_witness :
    sweep noFail
        (sweep noFail ⟨[Entry.file "a.png", Entry.file "b.txt",
                        Entry.file "c.unknown", Entry.dir "Stuff"], []⟩).1 =
      ((sweep noFail ⟨[Entry.file "a.png", Entry.file "b.txt",
                       Entry.file "c.unknown", Entry.dir "Stuff"], []⟩).1,
       [], none) :=
  sweeper_idempotent _ (by decide)

/-- C2 (amended): every `shutil.move` failure is caught at the Mover
boundary and converted into a reported outcome — provided the
`os.makedirs` step succeeds.  The directory-creation step itself sits
outside the `try`, so its failure escapes the Mover (see the
counterexample). -/
theorem mover_catches_move_errors :
    (∀ env isDirectory name, env.mkdirErr = none →
      ∀ err, on_created env isDirectory name ≠ Except.error err) ∧
    (∀ io : FileIo, (∀ n, io.mkdirErr n = none) →
      ∀ fs l, (sweepList io fs l).2.2 = none) := by
  constructor
  · intro env d name hmk err
    cases d
    · cases hc : classify name with
      | none => simp [on_created, hc]
      | some cat =>
        cases hmv : env.moveErr with
        | some e2 => simp [on_created, hc, hmk, hmv]
        | none => simp [on_created, hc, hmk, hmv]
    · simp [on_created]
  · intro io hmk fs l
    exact sweepList_mkdir_ok_no_abort io hmk l fs

/-- C2 counterexample: a permission error raised by `os.makedirs`
propagates uncaught past the Mover, in the watcher handler and in the
sweep alike, because the `makedirs` call is outside the `try` block. -/
theorem mover_catches_move_errors_cex :
    on_created ⟨some "PermissionError", none⟩ false "a.jpg" =
      Except.error "PermissionError" ∧
    (sweepList ⟨fun _ => some "PermissionError", fun _ => none⟩
        ⟨[Entry.file "a.jpg"], []⟩ [Entry.file "a.jpg"]).2.2 =
      some "PermissionError" := by
  exact ⟨rfl, rfl⟩

/-- Witness for C2′s amended theorem: with directory creation
succeeding, a locked destination is reported, not thrown. -/
theorem mover_catches_move_errors_witness :
    on_created ⟨none, some "locked"⟩ false "a.jpg" ≠
      Except.error "PermissionError" ∧
    (sweepList noFail ⟨[Entry.file "a.jpg"], []⟩
        [Entry.file "a.jpg"]).2.2 = none :=
  ⟨mover_catches_move_errors.1 ⟨none, some "locked"⟩ false "a.jpg" rfl
     "PermissionError",
   mover_catches_move_errors.2 noFail (fun _ => rfl) _ _⟩

/-- C9: a name with no dot at all, or a leading dot followed by a
dot-free tail, has the empty string as its extracted suffix, classifies
to `none`, is never reported moved by a sweep, and is skipped by the
watcher handler. -/
theorem dotless_and_hidden_names_never_moved (name : String)
    (h : '.' ∉ name.data ∨ ∃ t, name.data = '.' :: t ∧ '.' ∉ t) :
    pyExtOf name = "" ∧ classify name = none ∧
    (∀ io fs l cat, SweepEv.moved name cat ∉ (sweepList io fs l).2.1) ∧
    (∀ env, on_created env false name = Except.ok MoveOutcome.skipped) := by
  have hext : pyExtOf name = "" := by
    rcases h with h | ⟨t, ht, htd⟩
    · have hsub : '.' ∉ name.data.dropWhile (fun c => c = '.') :=
        fun hc => h ((List.dropWhile_sublist _).subset hc)
      show (⟨pyExt name.data⟩ : String) = ""
      rw [pyExt_of_dropWhile_dot_free hsub]
    · have hdw : name.data.dropWhile (fun c => c = '.') =
          t.dropWhile (fun c => c = '.') := by
        rw [ht, List.dropWhile_cons]
        simp
      have hsub : '.' ∉ name.data.dropWhile (fun c => c = '.') := by
        rw [hdw]
        exact fun hc => htd ((List.dropWhile_sublist _).subset hc)
      show (⟨pyExt name.data⟩ : String) = ""
      rw [pyExt_of_dropWhile_dot_free hsub]
  have hcl : classify name = none := classify_of_ext_empty hext
  refine ⟨hext, hcl, ?_, ?_⟩
  · intro io fs l cat hmem
    have := sweepList_moved_classified io l fs name cat hmem
    rw [hcl] at this
    cases this
  · intro env
    simp [on_created, hcl]

/-- Witness for C9 at `README` (no dot) and `.png` (hidden file). -/
theorem dotless_and_hidden_names_never_moved_witness :
    classify "README" = none ∧ classify ".png" = none ∧
    on_created okIo false ".png" = Except.ok MoveOutcome.skipped :=
  ⟨(dotless_and_hidden_names_never_moved "README"
      (Or.inl (by decide))).2.1,
   (dotless_and_hidden_names_never_moved ".png"
      (Or.inr ⟨['p', 'n', 'g'], by decide, by decide⟩)).2.1,
   (dotless_and_hidden_names_never_moved ".png"
      (Or.inr ⟨['p', 'n', 'g'], by decide, by decide⟩)).2.2.2 okIo⟩

/-! ## Claim theorems about the controller -/

/-- C1: with a root selected, after a `start_monitoring` call exactly one
monitor thread is running, and a second `start_monitoring` without an
intervening stop reports "already running" and performs no action at
all: same state, no notification, no new session or subscription. -/
theorem at_most_one_watcher (io io2 : FileIo) (app : App) (root : String)
    (hsel : app.source_folder = some root)
    (hstop : ∀ s ∈ app.stopped, s.running = false)
    (hab : (sweep io (getFS app.dirs root)).2.2 = none) :
    workerRunning (start_monitoring io app).1 = true ∧
    activeCount (start_monitoring io app).1 = 1 ∧
    start_monitoring io2 (start_monitoring io app).1 =
      ((start_monitoring io app).1, [], [msgAlreadyRunning]) := by
  have hstop0 : (app.stopped).countP (fun s => s.running) = 0 :=
    List.countP_eq_zero.mpr (fun s hs => by rw [hstop s hs]; exact Bool.false_ne_true)
  by_cases hrun : workerRunning app = true
  · have h1 : start_monitoring io app = (app, [], [msgAlreadyRunning]) := by
      simp [start_monitoring, hsel, hrun]
    obtain ⟨w, hw, hwr⟩ : ∃ w, app.worker = some w ∧ w.running = true := by
      revert hrun
      unfold workerRunning
      cases app.worker with
      | none => intro h; cases h
      | some w => intro h; exact ⟨w, rfl, h⟩
    refine ⟨by rw [h1]; exact hrun, ?_, ?_⟩
    · rw [h1]
      simp [activeCount, sessionsOf, hw, List.countP_cons, hwr, hstop0]
    · rw [h1]
      simp [start_monitoring, hsel, hrun]
  · have hrun2 : workerRunning app = false := by
      revert hrun; cases workerRunning app <;> simp
    have h1 : start_monitoring io app =
        ({ app with
            dirs := setFS app.dirs root (sweep io (getFS app.dirs root)).1,
            worker := some { id := app.nextId, root := root, running := true },
            stopped :=
              (match app.worker with
               | some w => { w with running := false } :: app.stopped
               | none => app.stopped),
            nextId := app.nextId + 1 },
         sweepMoveEvs app.nextId (sweep io (getFS app.dirs root)).2.1,
         msgOrganizing ::
           ((sweep io (getFS app.dirs root)).2.1).map sweepMsg ++
           [msgStarted]) := by
      simp [start_monitoring, hsel, hrun2, hab]
    refine ⟨by rw [h1]; rfl, ?_, ?_⟩
    · rw [h1]
      cases hw : app.worker with
      | none =>
        simp [activeCount, sessionsOf, List.countP_cons, hstop0]
      | some w =>
        simp [activeCount, sessionsOf, List.countP_cons, hstop0]
    · rw [h1]
      simp [start_monitoring, hsel, workerRunning]

/-- Witness for C1 on the concrete fixture. -/
theorem at_most_one_watcher_witness :
    workerRunning (start_monitoring noFail app0).1 = true ∧
    activeCount (start_monitoring noFail app0).1 = 1 ∧
    start_monitoring noFail (start_monitoring noFail app0).1 =
      ((start_monitoring noFail app0).1, [], [msgAlreadyRunning]) :=
  at_most_one_watcher noFail noFail app0 "r" rfl
    (by intro s hs; cases hs) rfl

/-- C3 (amended): a successful Watcher move appends exactly one line to
`log.txt`, of the form `logLine` (the source's literal format, with its
leading marker and arrow), via an open-append-close `update_log` call;
the Sweeper, `select_folder` and `stop_monitoring` never write to
`log.txt` (sweep moves are reported on screen only). -/
theorem log_file_appends (app : App) (env : IoEnv) (name cat : String)
    (w : Session) (hw : app.worker = some w) (hrun : w.running = true)
    (hcl : classify name = some cat)
    (hmk : env.mkdirErr = none) (hmv : env.moveErr = none) :
    (on_fs_event env false name app).1.fileLog =
      app.fileLog ++ [logLine name cat] ∧
    (∀ io, (start_monitoring io app).1.fileLog = app.fileLog) ∧
    (∀ folder, (select_folder app folder).1.fileLog = app.fileLog) ∧
    (stop_monitoring app).1.fileLog = app.fileLog := by
  refine ⟨?_, ?_, ?_, ?_⟩
  · have hoc : on_created env false name =
        Except.ok (MoveOutcome.moved name cat) := by
      simp [on_created, hcl, hmk, hmv]
    simp [on_fs_event, hw, hrun, hoc, update_log]
  · intro io
    simp only [start_monitoring]
    split
    · rfl
    · split
      · rfl
      · split
        · rfl
        · rfl
  · intro folder
    simp only [select_folder]
    split
    · rfl
    · rfl
  · simp only [stop_monitoring]
    split
    · split
      · rfl
      · rfl
    · rfl

/-- C3 counterexample: the sweep of a fresh `start_monitoring` performs a
successful move (one `MoveEvent` is emitted) yet appends nothing to
`log.txt`, and the line the Watcher would write is not of the form
`Moved: <fileName> -> <category>`. -/
theorem log_file_appends_cex :
    (runCmds app0 [Cmd.start noFail]).2 =
      [Ev.sweepMove 0 "a.png" "Images", Ev.sweepMove 0 "b.txt" "Documents"] ∧
    (runCmds app0 [Cmd.start noFail]).1.fileLog = [] ∧
    logLine "a.png" "Images" ≠ "Moved: a.png -> Images" := by
  exact ⟨rfl, rfl, by decide⟩

/-- Witness for C3 on the concrete running fixture. -/
theorem log_file_appends_witness :
    (on_fs_event okIo false "d.mp4" appRun).1.fileLog =
      appRun.fileLog ++ [logLine "d.mp4" "Videos"] ∧
    (start_monitoring noFail appRun).1.fileLog = appRun.fileLog :=
  ⟨(log_file_appends appRun okIo "d.mp4" "Videos" ⟨0, "r", true⟩
      rfl rfl (by decide) rfl rfl).1,
   (log_file_appends appRun okIo "d.mp4" "Videos" ⟨0, "r", true⟩
      rfl rfl (by decide) rfl rfl).2.1 noFail⟩

/-- C10: selecting a new root only replaces the stored `source_folder`
(and reports the selection); the running monitor object is untouched,
and the delivery of any subsequent filesystem event behaves exactly as
it would have without the selection — the session keeps classifying and
moving under the root captured at its construction. -/
theorem select_changes_only_stored_root (app : App) (p : String)
    (hp : p ≠ "") :
    select_folder app p =
      ({ app with source_folder := some p }, [], [msgFolderSelected p]) ∧
    (∀ env d n,
      on_fs_event env d n { app with source_folder := some p } =
        ({ (on_fs_event env d n app).1 with source_folder := some p },
         (on_fs_event env d n app).2.1,
         (on_fs_event env d n app).2.2)) := by
  constructor
  · rw [select_folder, if_pos hp]
  · intro env d n
    cases app with
    | mk sf wo st ni dirs flog =>
      cases wo with
      | none => rfl
      | some w =>
        by_cases hr : w.running = true
        · cases hoc : on_created env d n with
          | ok out =>
            cases out with
            | moved a b => simp [on_fs_event, hr, hoc, update_log]
            | failed a b => simp [on_fs_event, hr, hoc]
            | skipped => simp [on_fs_event, hr, hoc]
          | error e => simp [on_fs_event, hr, hoc]
        · have hr2 : w.running = false := by
            revert hr; cases w.running <;> simp
          simp [on_fs_event, hr2]

/-- Witness for C10 on the concrete running fixture. -/
theorem select_changes_only_stored_root_witness :
    select_folder appRun "d2" =
      ({ appRun with source_folder := some "d2" }, [],
       [msgFolderSelected "d2"]) ∧
    on_fs_event okIo false "x.jpg" { appRun with source_folder := some "d2" } =
      ({ (on_fs_event okIo false "x.jpg" appRun).1 with
          source_folder := some "d2" },
       (on_fs_event okIo false "x.jpg" appRun).2.1,
       (on_fs_event okIo false "x.jpg" appRun).2.2) :=
  ⟨(select_changes_only_stored_root appRun "d2" (by decide)).1,
   (select_changes_only_stored_root appRun "d2" (by decide)).2 okIo false "x.jpg"⟩

/-! ## Trace ordering lemmas for the controller -/

lemma noSweepN_nil (n : Nat) : noSweepN n [] :=
  fun _ _ h => absurd h (List.not_mem_nil _)

lemma swOrd_nil (n : Nat) : swOrd n [] := by simp [swOrd]

lemma swOrd_watch_singleton (n m : Nat) (a b : String) :
    swOrd n [Ev.watchMove m a b] := by
  simp only [swOrd]
  exact ⟨fun _ => noSweepN_nil n, swOrd_nil n⟩

lemma swOrd_of_no_watch (n : Nat) :
    ∀ l, (∀ m a b, Ev.watchMove m a b ∉ l) → swOrd n l
  | [], _ => swOrd_nil n
  | Ev.sweepMove s a b :: rest, h => by
    simp only [swOrd]
    exact swOrd_of_no_watch n rest
      (fun m a2 b2 hm => h m a2 b2 (List.mem_cons_of_mem _ hm))
  | Ev.watchMove m a b :: rest, h =>
    absurd (List.mem_cons_self _ _) (h m a b)

lemma swOrd_append (n : Nat) :
    ∀ a b, swOrd n a → swOrd n b →
      ((∃ f c, Ev.watchMove n f c ∈ a) → noSweepN n b) →
      swOrd n (a ++ b)
  | [], b, _, hb, _ => hb
  | Ev.sweepMove s f c :: rest, b, ha, hb, hw => by
    simp only [List.cons_append, swOrd] at ha ⊢
    exact swOrd_append n rest b ha hb
      (fun ⟨f2, c2, hm⟩ => hw ⟨f2, c2, List.mem_cons_of_mem _ hm⟩)
  | Ev.watchMove m f c :: rest, b, ha, hb, hw => by
    simp only [List.cons_append, swOrd] at ha ⊢
    obtain ⟨h1, h2⟩ := ha
    constructor
    · intro hm f2 c2 hmem
      rcases List.mem_append.mp hmem with hmm | hmm
      · exact h1 hm f2 c2 hmm
      · exact hw ⟨f, c, by rw [hm]; exact List.mem_cons_self _ _⟩ f2 c2 hmm
    · exact swOrd_append n rest b h2 hb
        (fun ⟨f2, c2, hm⟩ => hw ⟨f2, c2, List.mem_cons_of_mem _ hm⟩)

lemma swOrd_noSweep_after (n : Nat) :
    ∀ (l : List Ev) (j : Nat) (f c : String), swOrd n l →
      l[j]? = some (Ev.watchMove n f c) → noSweepN n (l.drop (j + 1))
  | [], j, f, c, _, hj => by simp at hj
  | e :: rest, 0, f, c, hsw, hj => by
    simp only [List.getElem?_cons_zero, Option.some.injEq] at hj
    subst hj
    simp only [swOrd] at hsw
    simpa using hsw.1 (by trivial)
  | e :: rest, j + 1, f, c, hsw, hj => by
    simp only [List.getElem?_cons_succ] at hj
    have hsw2 : swOrd n rest := by
      cases e with
      | sweepMove s a b => simpa [swOrd] using hsw
      | watchMove m a b =>
        simp only [swOrd] at hsw
        exact hsw.2
    simpa using swOrd_noSweep_after n rest j f c hsw2 hj

lemma mem_sweepMoveEvs {sid : Nat} :
    ∀ {l : List SweepEv} {e : Ev}, e ∈ sweepMoveEvs sid l →
      ∃ a b, e = Ev.sweepMove sid a b := by
  intro l
  induction l with
  | nil => intro e h; cases h
  | cons s rest ih =>
    intro e h
    match s with
    | SweepEv.moved a b =>
      rcases List.mem_cons.mp h with h | h
      · exact ⟨a, b, h⟩
      · exact ih h
    | SweepEv.errorMoving a b => exact ih h

lemma sweepMoveEvs_no_watch {sid : Nat} {l : List SweepEv}
    {m : Nat} {a b : String} : Ev.watchMove m a b ∉ sweepMoveEvs sid l := by
  intro h
  obtain ⟨a2, b2, he⟩ := mem_sweepMoveEvs h
  cases he

lemma AppInv_of_fields {a b : App} (hw : b.worker = a.worker)
    (hs : b.stopped = a.stopped) (hn : b.nextId = a.nextId)
    (h : AppInv a) : AppInv b := by
  constructor
  · intro w hw2
    rw [hn]
    exact h.1 w (hw ▸ hw2)
  · intro s hs2
    rw [hn]
    exact h.2 s (hs ▸ hs2)

lemma select_folder_fields (app : App) (f : String) :
    (select_folder app f).1.worker = app.worker ∧
    (select_folder app f).1.stopped = app.stopped ∧
    (select_folder app f).1.nextId = app.nextId ∧
    (select_folder app f).2.1 = ([] : List Ev) := by
  simp only [select_folder]
  split
  · exact ⟨rfl, rfl, rfl, rfl⟩
  · exact ⟨rfl, rfl, rfl, rfl⟩

lemma stop_monitoring_fields (app : App) :
    (stop_monitoring app).1.nextId = app.nextId ∧
    (stop_monitoring app).2.1 = ([] : List Ev) ∧
    (AppInv app → AppInv (stop_monitoring app).1) := by
  cases hw : app.worker with
  | none =>
    have hst : stop_monitoring app = (app, [], [msgNothingToStop]) := by
      simp [stop_monitoring, hw]
    rw [hst]
    exact ⟨rfl, rfl, fun h => h⟩
  | some w =>
    by_cases hr : w.running = true
    · have hst : stop_monitoring app =
          ({ app with
              worker := none,
              stopped := { w with running := false } :: app.stopped },
           [], [msgStopped]) := by
        simp [stop_monitoring, hw, hr]
      rw [hst]
      refine ⟨rfl, rfl, fun h => ⟨?_, ?_⟩⟩
      · intro w2 hw2
        simp at hw2
      · intro s hs2
        rcases List.mem_cons.mp hs2 with h2 | h2
        · rw [h2]
          exact h.1 w hw
        · exact h.2 s h2
    · have hr2 : w.running = false := by
        revert hr; cases w.running <;> simp
      have hst : stop_monitoring app = (app, [], [msgNothingToStop]) := by
        simp [stop_monitoring, hw, hr2]
      rw [hst]
      exact ⟨rfl, rfl, fun h => h⟩

lemma on_fs_event_fields (env : IoEnv) (d : Bool) (n : String) (app : App) :
    (on_fs_event env d n app).1.worker = app.worker ∧
    (on_fs_event env d n app).1.stopped = app.stopped ∧
    (on_fs_event env d n app).1.nextId = app.nextId ∧
    ((on_fs_event env d n app).2.1 = [] ∨
     ∃ w a b, app.worker = some w ∧ w.running = true ∧
       (on_fs_event env d n app).2.1 = [Ev.watchMove w.id a b]) := by
  cases hw : app.worker with
  | none =>
    have hst : on_fs_event env d n app = (app, [], []) := by
      simp [on_fs_event, hw]
    rw [hst]
    exact ⟨hw, rfl, rfl, Or.inl rfl⟩
  | some w =>
    by_cases hr : w.running = true
    · cases hoc : on_created env d n with
      | ok out =>
        cases out with
        | moved a b =>
          have hst : on_fs_event env d n app =
              ({ app with
                  dirs := setFS app.dirs w.root
                    (moveToCat (ensureDir (getFS app.dirs w.root) b) a b),
                  fileLog := app.fileLog ++ [logLine a b] },
               [Ev.watchMove w.id a b], [logLine a b]) := by
            simp [on_fs_event, hw, hr, hoc, update_log]
          rw [hst]
          exact ⟨hw, rfl, rfl, Or.inr ⟨w, a, b, rfl, hr, rfl⟩⟩
        | failed a b =>
          have hst : on_fs_event env d n app = (app, [], []) := by
            simp [on_fs_event, hw, hr, hoc]
          rw [hst]
          exact ⟨hw, rfl, rfl, Or.inl rfl⟩
        | skipped =>
          have hst : on_fs_event env d n app = (app, [], []) := by
            simp [on_fs_event, hw, hr, hoc]
          rw [hst]
          exact ⟨hw, rfl, rfl, Or.inl rfl⟩
      | error e =>
        have hst : on_fs_event env d n app = (app, [], []) := by
          simp [on_fs_event, hw, hr, hoc]
        rw [hst]
        exact ⟨hw, rfl, rfl, Or.inl rfl⟩
    · have hr2 : w.running = false := by
        revert hr; cases w.running <;> simp
      have hst : on_fs_event env d n app = (app, [], []) := by
        simp [on_fs_event, hw, hr2]
      rw [hst]
      exact ⟨hw, rfl, rfl, Or.inl rfl⟩

lemma start_monitoring_fields (io : FileIo) (app : App) :
    app.nextId ≤ (start_monitoring io app).1.nextId ∧
    (AppInv app → AppInv (start_monitoring io app).1) ∧
    ((start_monitoring io app).2.1 = [] ∨
     ∃ l, (start_monitoring io app).2.1 = sweepMoveEvs app.nextId l) := by
  cases hs : app.source_folder with
  | none =>
    have hst : start_monitoring io app = (app, [], [msgSelectFirst]) := by
      simp [start_monitoring, hs]
    rw [hst]
    exact ⟨Nat.le_refl _, fun h => h, Or.inl rfl⟩
  | some root =>
    by_cases hr : workerRunning app = true
    · have hst : start_monitoring io app = (app, [], [msgAlreadyRunning]) := by
        simp [start_monitoring, hs, hr]
      rw [hst]
      exact ⟨Nat.le_refl _, fun h => h, Or.inl rfl⟩
    · have hr2 : workerRunning app = false := by
        revert hr; cases workerRunning app <;> simp
      cases hab : (sweep io (getFS app.dirs root)).2.2 with
      | some err =>
        have hst : start_monitoring io app =
            ({ app with
                dirs := setFS app.dirs root (sweep io (getFS app.dirs root)).1 },
             sweepMoveEvs app.nextId (sweep io (getFS app.dirs root)).2.1,
             msgOrganizing ::
               ((sweep io (getFS app.dirs root)).2.1).map sweepMsg ++
               [msgErrorStarting err]) := by
          simp [start_monitoring, hs, hr2, hab]
        rw [hst]
        refine ⟨Nat.le_refl _, fun h => ?_, Or.inr ⟨_, rfl⟩⟩
        exact AppInv_of_fields rfl rfl rfl h
      | none =>
        have hst : start_monitoring io app =
            ({ app with
                dirs := setFS app.dirs root (sweep io (getFS app.dirs root)).1,
                worker :=
                  some { id := app.nextId, root := root, running := true },
                stopped :=
                  (match app.worker with
                   | some w => { w with running := false } :: app.stopped
                   | none => app.stopped),
                nextId := app.nextId + 1 },
             sweepMoveEvs app.nextId (sweep io (getFS app.dirs root)).2.1,
             msgOrganizing ::
               ((sweep io (getFS app.dirs root)).2.1).map sweepMsg ++
               [msgStarted]) := by
          simp [start_monitoring, hs, hr2, hab]
        rw [hst]
        refine ⟨Nat.le_succ _, fun h => ⟨?_, ?_⟩, Or.inr ⟨_, rfl⟩⟩
        · intro w2 hw2
          simp only [Option.some.injEq] at hw2
          rw [← hw2]
          exact Nat.lt_succ_self _
        · intro s hs2
          simp only at hs2
          cases hw : app.worker with
          | none =>
            rw [hw] at hs2
            exact Nat.lt_succ_of_lt (h.2 s hs2)
          | some w =>
            rw [hw] at hs2
            rcases List.mem_cons.mp hs2 with h2 | h2
            · rw [h2]
              exact Nat.lt_succ_of_lt (h.1 w hw)
            · exact Nat.lt_succ_of_lt (h.2 s h2)

lemma stepCmd_nextId_le (app : App) (c : Cmd) :
    app.nextId ≤ (stepCmd app c).1.nextId := by
  cases c with
  | select f => exact Nat.le_of_eq (select_folder_fields app f).2.2.1.symm
  | start io => exact (start_monitoring_fields io app).1
  | stop => exact Nat.le_of_eq (stop_monitoring_fields app).1.symm
  | fsEvent env d n =>
    exact Nat.le_of_eq (on_fs_event_fields env d n app).2.2.1.symm

lemma stepCmd_inv (app : App) (c : Cmd) (h : AppInv app) :
    AppInv (stepCmd app c).1 := by
  cases c with
  | select f =>
    obtain ⟨h1, h2, h3, _⟩ := select_folder_fields app f
    exact AppInv_of_fields h1 h2 h3 h
  | start io => exact (start_monitoring_fields io app).2.1 h
  | stop => exact (stop_monitoring_fields app).2.2 h
  | fsEvent env d n =>
    obtain ⟨h1, h2, h3, _⟩ := on_fs_event_fields env d n app
    exact AppInv_of_fields h1 h2 h3 h

lemma stepCmd_shape (app : App) (c : Cmd) :
    (stepCmd app c).2.1 = [] ∨
    (∃ l, (stepCmd app c).2.1 = sweepMoveEvs app.nextId l) ∨
    (∃ w a b, app.worker = some w ∧ w.running = true ∧
       (stepCmd app c).2.1 = [Ev.watchMove w.id a b]) := by
  cases c with
  | select f => exact Or.inl (select_folder_fields app f).2.2.2
  | start io =>
    rcases (start_monitoring_fields io app).2.2 with h | h
    · exact Or.inl h
    · exact Or.inr (Or.inl h)
  | stop => exact Or.inl (stop_monitoring_fields app).2.1
  | fsEvent env d n =>
    rcases (on_fs_event_fields env d n app).2.2.2 with h | h
    · exact Or.inl h
    · exact Or.inr (Or.inr h)

lemma runCmds_noSweepN :
    ∀ (cmds : List Cmd) (app : App) (n : Nat), n < app.nextId →
      noSweepN n (runCmds app cmds).2
  | [], app, n, _ => noSweepN_nil n
  | c :: rest, app, n, hn => by
    intro f c2 hmem
    have hmem2 : Ev.sweepMove n f c2 ∈
        (stepCmd app c).2.1 ++ (runCmds (stepCmd app c).1 rest).2 := hmem
    rcases List.mem_append.mp hmem2 with hm | hm
    · rcases stepCmd_shape app c with hsh | ⟨l, hsh⟩ | ⟨w, a, b, _, _, hsh⟩
      · rw [hsh] at hm
        cases hm
      · rw [hsh] at hm
        obtain ⟨a, b, he⟩ := mem_sweepMoveEvs hm
        have : n = app.nextId := by cases he; rfl
        omega
      · rw [hsh] at hm
        rcases List.mem_cons.mp hm with h2 | h2
        · cases h2
        · cases h2
    · exact runCmds_noSweepN rest (stepCmd app c).1 n
        (Nat.lt_of_lt_of_le hn (stepCmd_nextId_le app c)) f c2 hm

lemma runCmds_swOrd :
    ∀ (cmds : List Cmd) (app : App) (n : Nat), AppInv app →
      swOrd n (runCmds app cmds).2
  | [], _, n, _ => swOrd_nil n
  | c :: rest, app, n, hinv => by
    show swOrd n ((stepCmd app c).2.1 ++ (runCmds (stepCmd app c).1 rest).2)
    have htail : swOrd n (runCmds (stepCmd app c).1 rest).2 :=
      runCmds_swOrd rest (stepCmd app c).1 n (stepCmd_inv app c hinv)
    rcases stepCmd_shape app c with hsh | ⟨l, hsh⟩ | ⟨w, a, b, hw, hwr, hsh⟩
    · rw [hsh]
      exact htail
    · rw [hsh]
      refine swOrd_append n _ _
        (swOrd_of_no_watch n _ (fun m a b => sweepMoveEvs_no_watch))
        htail ?_
      rintro ⟨f, c2, hmem⟩
      exact absurd hmem sweepMoveEvs_no_watch
    · rw [hsh]
      refine swOrd_append n _ _ (swOrd_watch_singleton n w.id a b) htail ?_
      rintro ⟨f, c2, hmem⟩
      rcases List.mem_cons.mp hmem with h2 | h2
      · have hid : w.id = n := by cases h2; rfl
        have hlt : w.id < app.nextId := hinv.1 w hw
        exact runCmds_noSweepN rest (stepCmd app c).1 n
          (Nat.lt_of_lt_of_le (hid ▸ hlt) (stepCmd_nextId_le app c))
      · cases h2

/-- C8: in any run of the application, every `MoveEvent` produced by the
sweep of a `start_monitoring` invocation precedes, in the notification
trace, every `MoveEvent` produced by the watch session started by that
same invocation (sessions are matched by their id tag). -/
theorem sweep_events_precede_watch_events
    (app : App) (cmds : List Cmd) (n i j : Nat) (f c f2 c2 : String)
    (hinv : AppInv app)
    (hi : (runCmds app cmds).2[i]? = some (Ev.sweepMove n f c))
    (hj : (runCmds app cmds).2[j]? = some (Ev.watchMove n f2 c2)) :
    i < j := by
  by_contra hij
  push_neg at hij
  have hsw : swOrd n (runCmds app cmds).2 := runCmds_swOrd cmds app n hinv
  have hns : noSweepN n ((runCmds app cmds).2.drop (j + 1)) :=
    swOrd_noSweep_after n _ j f2 c2 hsw hj
  have hji : j ≠ i := by
    intro h
    rw [h, hi] at hj
    cases hj
  have hle : j + 1 ≤ i := by omega
  have hdrop : ((runCmds app cmds).2.drop (j + 1))[i - (j + 1)]? =
      some (Ev.sweepMove n f c) := by
    rw [List.getElem?_drop]
    have : j + 1 + (i - (j + 1)) = i := by omega
    rw [this]
    exact hi
  exact hns f c (List.getElem?_mem hdrop)

/-- Witness for C8: a concrete run in which the sweep of session 0 moves
`a.png` (position 0) and the session then moves `d.mp4` (position 2). -/
theorem sweep_events_precede_watch_events_witness : (0 : Nat) < 2 :=
  sweep_events_precede_watch_events app0
    [Cmd.start noFail, Cmd.fsEvent okIo false "d.mp4"]
    0 0 2 "a.png" "Images" "d.mp4" "Videos"
    ⟨(fun w hw => by cases hw), (fun s hs => by cases hs)⟩
    (by decide) (by decide)
